import Mathlib

/-!
# Verification of the CircularBuffer storage engine (CircularBuffer.cpp)

A shallow embedding of `src/CircularBuffer.cpp`.  Pointers into the backing
region are modelled as `Nat` offsets from `buf` (so `bufLastPlusOne`
corresponds to the offset `bufSize`), the backing memory is a total function
`Nat → Nat` (writes at indices `≥ bufSize` model out-of-region writes by the
C code), caller data blocks are `List Nat`, and the caller's data pointer -
which the C code uses as the map key - is modelled as an opaque `Nat` key.

The `std::map<byte*, BufBlock*>` index is represented by key lookup in the
insertion-order doubly-linked list (`blocks`), which is faithful for every
state the program can produce: blocks are inserted into and erased from the
map and the list together, and `addBlockToBuf` establishes key uniqueness
before inserting.  Mutation through the map's `BufBlock*` is mutation of the
corresponding list entry.
-/

/-- Result codes of `CircularBuffer.cpp` (`enum ResultCode`). -/
inductive ResultCode
  | RC_SUCCESS
  | RC_BLOCK_SIZE_EXCEEDS_FREE_SPACE
  | RC_BLOCK_ADD_FAILED_DUPLICATE
  | RC_BLOCK_ADD_FAILED_MAP_ERR
  | RC_BLOCK_NOT_FOUND
  | RC_BLOCK_MAP_ERASE_ERR
deriving DecidableEq, Repr

/-- Embedding of `struct BufInfo`: the stats filled in by `setBufInfo`. -/
structure BufInfo where
  bufSize : Nat
  bufBytesFree : Nat
  bufBytesUsed : Nat
deriving DecidableEq, Repr

/-- Embedding of `struct BufBlock` (the `next`/`prev` links are represented by the
position of the record in the `blocks` list of `CircularBuffer`). -/
structure BufBlock where
  blockInBuf : Nat
  blockMapKey : Nat
  blockSize : Nat
  blockDeletePending : Bool
deriving DecidableEq, Repr

/-- Embedding of `struct CircularBuffer`: `buf` is the backing memory (total on `Nat`;
indices `≥ bufSize` are outside the malloc'd region), `bufStart`/`bufEnd`
are the cursors as offsets, `blocks` is the doubly-linked block list from
head (oldest) to tail (most recently added). -/
structure CircularBuffer where
  buf : Nat → Nat
  bufSize : Nat
  bufStart : Nat
  bufEnd : Nat
  bufBytesFree : Nat
  bufBytesDeletePending : Nat
  blocks : List BufBlock

/-- Write the bytes of `data` at consecutive raw offsets starting at `dst`
(no wraparound: this is the semantics of a single C `memmove` from caller
memory into the region). -/
def writeBytes (m : Nat → Nat) (dst : Nat) (data : List Nat) : Nat → Nat :=
  match data with
  | [] => m
  | b :: rest => writeBytes (fun i => if i = dst then b else m i) (dst + 1) rest

/-- Model of `memmove(dst, src, n)` within the backing memory: an overlap-safe copy
(as-if through a temporary), as guaranteed by C `memmove`. -/
def memmove (m : Nat → Nat) (dst src n : Nat) : Nat → Nat :=
  fun i => if dst ≤ i ∧ i < dst + n then m (src + (i - dst)) else m i

/-- Read `len` bytes starting at raw offset `start`. -/
def readBytes (m : Nat → Nat) (start len : Nat) : List Nat :=
  (List.range len).map (fun i => m (start + i))

/-- Embedding of `initBuf(bufSz)` on the successful-malloc path: fresh memory (modelled
as all zeroes), both cursors at the region's origin, everything free. -/
def initBuf (bufSz : Nat) : CircularBuffer :=
  { buf := fun _ => 0
    bufSize := bufSz
    bufStart := 0
    bufEnd := 0
    bufBytesFree := bufSz
    bufBytesDeletePending := 0
    blocks := [] }

/-- Embedding of `setBufInfo`: reported free space includes reclaimable pending-delete
bytes; reported used space excludes them. -/
def setBufInfo (s : CircularBuffer) : BufInfo :=
  { bufSize := s.bufSize
    bufBytesFree := s.bufBytesFree + s.bufBytesDeletePending
    bufBytesUsed := (s.bufSize - s.bufBytesFree) - s.bufBytesDeletePending }

/-- Embedding of `findBlockInMap`: `blockMap.find(block)`, i.e. lookup of the caller key
among the live records. -/
def findBlockInMap (s : CircularBuffer) (key : Nat) : Option BufBlock :=
  s.blocks.find? (fun b => b.blockMapKey == key)

/-- The mutation `bufBlock->blockDeletePending = true` performed through the
pointer returned by the map lookup: it updates the (first) record whose key
matches. -/
def markDeletePending : List BufBlock → Nat → List BufBlock
  | [], _ => []
  | b :: rest, key =>
      if b.blockMapKey == key then { b with blockDeletePending := true } :: rest
      else b :: markDeletePending rest key

/-- The cursor/byte-moving part of `removeBlockFromBuf` (everything before
the final two counter updates).  Returns the new memory, `bufStart` and
`bufEnd`.  `headOff`/`tailOff` are `bufBlockHead->blockInBuf` and
`bufBlockTail->blockInBuf` at the call. -/
def removeMove (s : CircularBuffer) (headOff tailOff blk blksz : Nat) :
    (Nat → Nat) × Nat × Nat :=
  let dst := blk
  let src0 := blk + blksz
  let src := if src0 ≥ s.bufSize then src0 - s.bufSize else src0
  let btm0 := if src ≤ s.bufEnd then s.bufEnd - src else (s.bufSize - src) + s.bufEnd
  let start1 := if blk = headOff then src else s.bufStart
  let end1 := if blk = tailOff then dst else s.bufEnd
  let btm := if blk = headOff ∨ blk = tailOff then 0 else btm0
  if btm = 0 then (s.buf, start1, end1)
  else
    let case1 := dst < src
    let len1 := s.bufSize - (if case1 then src else dst)
    if btm ≤ len1 then (memmove s.buf dst src btm, start1, dst + btm)
    else
      let m1 := memmove s.buf dst src len1
      let btm1 := btm - len1
      let dst1 := dst + len1
      if case1 then
        let len2 := s.bufSize - dst1
        let m2 := memmove m1 dst1 0 len2
        let btm2 := btm1 - len2
        (memmove m2 0 len2 btm2, start1, btm2)
      else
        (memmove m1 0 (src + len1) btm1, start1, btm1)

/-- Embedding of `removeBlockFromBuf(blk, blksz)`: close the gap left by the block and
move its bytes from pending-delete to free. -/
def removeBlockFromBuf (s : CircularBuffer) (headOff tailOff blk blksz : Nat) :
    CircularBuffer :=
  { s with
    buf := (removeMove s headOff tailOff blk blksz).1
    bufStart := (removeMove s headOff tailOff blk blksz).2.1
    bufEnd := (removeMove s headOff tailOff blk blksz).2.2
    bufBytesDeletePending := s.bufBytesDeletePending - blksz
    bufBytesFree := s.bufBytesFree + blksz }

/-- The offset-rebuilding walk of `updateBufBlockList`: assign each record's
`blockInBuf` from the running position, wrapping at the physical boundary. -/
def updateBlocks (cap : Nat) : Nat → List BufBlock → List BufBlock
  | _, [] => []
  | pos, b :: rest =>
      let pos1 := pos + b.blockSize
      let pos2 := if pos1 ≥ cap then pos1 - cap else pos1
      { b with blockInBuf := pos } :: updateBlocks cap pos2 rest

/-- Embedding of `updateBufBlockList()`. -/
def updateBufBlockList (s : CircularBuffer) : CircularBuffer :=
  { s with blocks := updateBlocks s.bufSize s.bufStart s.blocks }

/-- The tail-to-head sweep of `compactBuf`: the first list argument is the
reversed not-yet-visited prefix of the block list (so its head is the node
the C loop currently points at) and the accumulator holds the surviving
already-visited blocks in original order.  Removal of a node also erases
its key from the map (in this representation, the node simply does not
reach the result list). -/
def compactGo : CircularBuffer → List BufBlock → List BufBlock →
    CircularBuffer × List BufBlock
  | s, [], acc => (s, acc)
  | s, n :: revLeft, acc =>
    if n.blockDeletePending then
      let cur := revLeft.reverse ++ n :: acc
      let headOff := match cur.head? with | some b => b.blockInBuf | none => 0
      let tailOff := match cur.getLast? with | some b => b.blockInBuf | none => 0
      compactGo (removeBlockFromBuf s headOff tailOff n.blockInBuf n.blockSize)
        revLeft acc
    else compactGo s revLeft (n :: acc)

/-- Embedding of `compactBuf()`. -/
def compactBuf (s : CircularBuffer) : CircularBuffer :=
  if s.bufBytesDeletePending = 0 then s
  else
    updateBufBlockList
      { (compactGo s s.blocks.reverse []).1 with blocks := (compactGo s s.blocks.reverse []).2 }

/-- Embedding of `checkSize(blockSize)`: capacity admission, possibly compacting. -/
def checkSize (s : CircularBuffer) (blockSize : Nat) : CircularBuffer × ResultCode :=
  if blockSize ≤ s.bufBytesFree then (s, ResultCode.RC_SUCCESS)
  else if blockSize > s.bufBytesFree + s.bufBytesDeletePending then
    (s, ResultCode.RC_BLOCK_SIZE_EXCEEDS_FREE_SPACE)
  else
    (compactBuf s,
     if blockSize ≤ (compactBuf s).bufBytesFree then ResultCode.RC_SUCCESS
     else ResultCode.RC_BLOCK_SIZE_EXCEEDS_FREE_SPACE)

/-- Embedding of `appendBlockToBuf(block, blockSize)`.  The third component of the result
is the physical offset at which the copy actually started (the value of
`bufEnd` after `checkSize` ran); the C function does not return it, and
`addBlockToBuf` does not use it - it is exposed here so that theorems can
talk about "the starting offset the append actually used". -/
def appendBlockToBuf (s : CircularBuffer) (data : List Nat) :
    CircularBuffer × ResultCode × Nat :=
  let blockSize := data.length
  let s1 := (checkSize s blockSize).1
  let rc := (checkSize s blockSize).2
  if rc = ResultCode.RC_SUCCESS then
    let len1 := s1.bufSize - s1.bufEnd
    let doSplit := s1.bufStart < s1.bufEnd ∧ len1 < blockSize
    let m1 := if doSplit then writeBytes s1.buf s1.bufEnd (data.take len1) else s1.buf
    let e1 := if doSplit then 0 else s1.bufEnd
    let rest := if doSplit then data.drop len1 else data
    let m2 := writeBytes m1 e1 rest
    let e2 := e1 + rest.length
    let e3 := if e2 ≥ s1.bufSize then 0 else e2
    ({ s1 with buf := m2, bufEnd := e3, bufBytesFree := s1.bufBytesFree - blockSize },
     ResultCode.RC_SUCCESS, s1.bufEnd)
  else (s1, rc, s1.bufEnd)

/-- The part of `addBlockToBuf` after the duplicate-key check: capture
`blockAddrInBuf = bufEnd` (before the append, exactly as the C code does),
append, and on success link a fresh `BufBlock` at the tail and insert it
into the map (`addBlockToMap` fails iff the key is already in the map,
i.e. already carried by a pre-existing record). -/
def newBufBlock (s : CircularBuffer) (key : Nat) (data : List Nat) : BufBlock :=
  { blockInBuf := s.bufEnd, blockMapKey := key,
    blockSize := data.length, blockDeletePending := false }

/-- See the comment above `newBufBlock`: this is the body of `addBlockToBuf`
from the point where `blockAddrInBuf = bufEnd` is captured. -/
def addAfterFind (s : CircularBuffer) (key : Nat) (data : List Nat) :
    CircularBuffer × BufInfo × ResultCode :=
  if (appendBlockToBuf s data).2.1 = ResultCode.RC_SUCCESS then
    ({ (appendBlockToBuf s data).1 with
        blocks := (appendBlockToBuf s data).1.blocks ++ [newBufBlock s key data] },
     setBufInfo { (appendBlockToBuf s data).1 with
        blocks := (appendBlockToBuf s data).1.blocks ++ [newBufBlock s key data] },
     if (findBlockInMap (appendBlockToBuf s data).1 key).isSome then
       ResultCode.RC_BLOCK_ADD_FAILED_MAP_ERR
     else ResultCode.RC_SUCCESS)
  else ((appendBlockToBuf s data).1, setBufInfo (appendBlockToBuf s data).1,
        (appendBlockToBuf s data).2.1)

/-- Embedding of `addBlockToBuf(block, blockSize, bufInfo)`. -/
def addBlockToBuf (s : CircularBuffer) (key : Nat) (data : List Nat) :
    CircularBuffer × BufInfo × ResultCode :=
  match findBlockInMap s key with
  | some b =>
      if b.blockDeletePending then addAfterFind (compactBuf s) key data
      else (s, setBufInfo s, ResultCode.RC_BLOCK_ADD_FAILED_DUPLICATE)
  | none => addAfterFind s key data

/-- Embedding of `deleteBlockFromBuf(block, bufInfo)`.  Note that the C function returns
`RC_SUCCESS` unconditionally (the `rc` from the lookup only guards the
marking). -/
def deleteBlockFromBuf (s : CircularBuffer) (key : Nat) :
    CircularBuffer × BufInfo × ResultCode :=
  match findBlockInMap s key with
  | some b =>
      let s1 := { s with
        bufBytesDeletePending := s.bufBytesDeletePending + b.blockSize
        blocks := markDeletePending s.blocks key }
      (s1, setBufInfo s1, ResultCode.RC_SUCCESS)
  | none => (s, setBufInfo s, ResultCode.RC_SUCCESS)

/-- The emission part of `printBuf` (after its compaction): the occupied
region, split in two when it crosses the physical boundary. -/
def emitBuf (s : CircularBuffer) : List Nat :=
  let bytesToPrint := s.bufSize - s.bufBytesFree
  if bytesToPrint ≤ s.bufSize - s.bufStart then readBytes s.buf s.bufStart bytesToPrint
  else
    readBytes s.buf s.bufStart (s.bufSize - s.bufStart) ++
      readBytes s.buf 0 (bytesToPrint - (s.bufSize - s.bufStart))

/-- Embedding of `printBuf()`: compact, then emit.  Returns the mutated state and the
emitted bytes. -/
def printBuf (s : CircularBuffer) : CircularBuffer × List Nat :=
  let s1 := compactBuf s
  (s1, emitBuf s1)

/-- Sum of the sizes of records not marked delete-pending ("usedBytes" in
the spec's invariant). -/
def usedSum : List BufBlock → Nat
  | [] => 0
  | b :: rest => (if b.blockDeletePending then 0 else b.blockSize) + usedSum rest

/-- Sum of the sizes of records marked delete-pending. -/
def flaggedSum : List BufBlock → Nat
  | [] => 0
  | b :: rest => (if b.blockDeletePending then b.blockSize else 0) + flaggedSum rest

/-- States reachable by any sequence of `addBlockToBuf`, `deleteBlockFromBuf`
and `printBuf` calls on a freshly constructed buffer. -/
inductive ReachableAll : CircularBuffer → Prop
  | init (cap : Nat) : ReachableAll (initBuf cap)
  | add {s : CircularBuffer} (key : Nat) (data : List Nat) :
      ReachableAll s → ReachableAll (addBlockToBuf s key data).1
  | del {s : CircularBuffer} (key : Nat) :
      ReachableAll s → ReachableAll (deleteBlockFromBuf s key).1
  | dump {s : CircularBuffer} :
      ReachableAll s → ReachableAll (printBuf s).1

/-- A delete of `key` is "safe" when it does not target a record that is
already marked delete-pending. -/
def goodDelete (s : CircularBuffer) (key : Nat) : Prop :=
  ∀ b, findBlockInMap s key = some b → b.blockDeletePending = false

/-- States reachable when no `deleteBlockFromBuf` is ever issued for a key
whose record is already delete-pending. -/
inductive ReachableSafe : CircularBuffer → Prop
  | init (cap : Nat) : ReachableSafe (initBuf cap)
  | add {s : CircularBuffer} (key : Nat) (data : List Nat) :
      ReachableSafe s → ReachableSafe (addBlockToBuf s key data).1
  | del {s : CircularBuffer} (key : Nat) : goodDelete s key →
      ReachableSafe s → ReachableSafe (deleteBlockFromBuf s key).1
  | dump {s : CircularBuffer} :
      ReachableSafe s → ReachableSafe (printBuf s).1

/-- The invariant of claim C1, together with the bookkeeping fact
(`bufBytesDeletePending` equals the flagged sizes) needed to propagate it. -/
def bufInv (s : CircularBuffer) : Prop :=
  s.bufBytesFree + s.bufBytesDeletePending + usedSum s.blocks = s.bufSize ∧
  s.bufBytesDeletePending = flaggedSum s.blocks

/-- State after `Add(5, one byte)`, `Delete(5)`, `Delete(5)` on a capacity-2
buffer: a repeated delete of the same key. -/
def c1state : CircularBuffer :=
  (deleteBlockFromBuf (deleteBlockFromBuf (addBlockToBuf (initBuf 2) 5 [9]).1 5).1 5).1

/-- State after `Add(1,[1])`, `Add(2,[2,3])`, `Delete(2)` on a capacity-4
buffer: the next `Add` must trigger a compaction inside `checkSize`. -/
def c3state : CircularBuffer :=
  (deleteBlockFromBuf (addBlockToBuf (addBlockToBuf (initBuf 4) 1 [1]).1 2 [2,3]).1 2).1

/-- State after `Add(1,[1])`, `Add(2,[2])`, `Delete(1)`, `Dump`, `Delete(2)`,
`Dump` on a capacity-4 buffer.  The final compaction removes the sole
remaining block (offset 1, size 1) and leaves `bufStart = 2`, `bufEnd = 1`,
`bufBytesFree = 4`. -/
def c4state : CircularBuffer :=
  (printBuf (deleteBlockFromBuf (printBuf (deleteBlockFromBuf
    (addBlockToBuf (addBlockToBuf (initBuf 4) 1 [1]).1 2 [2]).1 1).1).1 2).1).1

/-- State after `Add(1,[1,2])`, `Add(2,[3])`, `Delete(2)`, `Delete(1)`,
`Dump`, `Add(3,[9])` on a capacity-4 buffer. -/
def c5state : CircularBuffer :=
  (addBlockToBuf (printBuf (deleteBlockFromBuf (deleteBlockFromBuf
    (addBlockToBuf (addBlockToBuf (initBuf 4) 1 [1,2]).1 2 [3]).1 2).1 1).1).1 3 [9]).1

/-- State with pending-delete bytes used by the C6 witness: `Add(1,[7,7])`
then `Delete(1)` on a capacity-4 buffer. -/
def c6state : CircularBuffer :=
  (deleteBlockFromBuf (addBlockToBuf (initBuf 4) 1 [7,7]).1 1).1

/-- State holding one live block under key 1: `Add(1,[7])` on a capacity-4
buffer. -/
def c7state : CircularBuffer := (addBlockToBuf (initBuf 4) 1 [7]).1

/-- State after `Add(1,[1,2])`, `Delete(1)` on a capacity-4 buffer: key 1 is
delete-pending. -/
def c8state : CircularBuffer :=
  (deleteBlockFromBuf (addBlockToBuf (initBuf 4) 1 [1,2]).1 1).1

/-- State after `Add(1,[7])`, `Delete(1)` on a capacity-4 buffer (used by the
C10 witness). -/
def c10state : CircularBuffer :=
  (deleteBlockFromBuf (addBlockToBuf (initBuf 4) 1 [7]).1 1).1

/-! ## Helper lemmas -/

theorem compactBuf_pending_zero {s : CircularBuffer}
    (h : s.bufBytesDeletePending = 0) : compactBuf s = s := by
  simp [compactBuf, h]

theorem usedSum_append (l1 l2 : List BufBlock) :
    usedSum (l1 ++ l2) = usedSum l1 + usedSum l2 := by
  induction l1 with
  | nil => simp [usedSum]
  | cons b rest ih => simp [usedSum, ih]; omega

theorem flaggedSum_append (l1 l2 : List BufBlock) :
    flaggedSum (l1 ++ l2) = flaggedSum l1 + flaggedSum l2 := by
  induction l1 with
  | nil => simp [flaggedSum]
  | cons b rest ih => simp [flaggedSum, ih]; omega

theorem usedSum_reverse (l : List BufBlock) : usedSum l.reverse = usedSum l := by
  induction l with
  | nil => rfl
  | cons b rest ih => simp [usedSum, List.reverse_cons, usedSum_append, ih]; omega

theorem flaggedSum_reverse (l : List BufBlock) : flaggedSum l.reverse = flaggedSum l := by
  induction l with
  | nil => rfl
  | cons b rest ih => simp [flaggedSum, List.reverse_cons, flaggedSum_append, ih]; omega

theorem usedSum_updateBlocks (cap : Nat) :
    ∀ (pos : Nat) (l : List BufBlock), usedSum (updateBlocks cap pos l) = usedSum l := by
  intro pos l
  induction l generalizing pos with
  | nil => rfl
  | cons b rest ih => simp [updateBlocks, usedSum, ih]

theorem flaggedSum_updateBlocks (cap : Nat) :
    ∀ (pos : Nat) (l : List BufBlock), flaggedSum (updateBlocks cap pos l) = flaggedSum l := by
  intro pos l
  induction l generalizing pos with
  | nil => rfl
  | cons b rest ih => simp [updateBlocks, flaggedSum, ih]

theorem updateBlocks_flag (cap : Nat) :
    ∀ (pos : Nat) (l : List BufBlock) (b : BufBlock), b ∈ updateBlocks cap pos l →
      ∃ a ∈ l, b.blockDeletePending = a.blockDeletePending := by
  intro pos l
  induction l generalizing pos with
  | nil => intro b hb; simp [updateBlocks] at hb
  | cons x rest ih =>
      intro b hb
      simp only [updateBlocks, List.mem_cons] at hb
      rcases hb with hb | hb
      · exact ⟨x, by simp, by simp [hb]⟩
      · obtain ⟨a, ha, hba⟩ := ih _ b hb
        exact ⟨a, by simp [ha], hba⟩

theorem removeBlockFromBuf_bufBytesFree (s : CircularBuffer) (h t blk n : Nat) :
    (removeBlockFromBuf s h t blk n).bufBytesFree = s.bufBytesFree + n := rfl

theorem removeBlockFromBuf_pending (s : CircularBuffer) (h t blk n : Nat) :
    (removeBlockFromBuf s h t blk n).bufBytesDeletePending =
      s.bufBytesDeletePending - n := rfl

theorem removeBlockFromBuf_bufSize (s : CircularBuffer) (h t blk n : Nat) :
    (removeBlockFromBuf s h t blk n).bufSize = s.bufSize := rfl

theorem compactGo_inv (l : List BufBlock) :
    ∀ (s : CircularBuffer) (acc : List BufBlock),
      s.bufBytesFree + s.bufBytesDeletePending + (usedSum l + usedSum acc) = s.bufSize →
      s.bufBytesDeletePending = flaggedSum l + flaggedSum acc →
      flaggedSum acc = 0 →
      (compactGo s l acc).1.bufBytesFree + (compactGo s l acc).1.bufBytesDeletePending
          + usedSum (compactGo s l acc).2 = (compactGo s l acc).1.bufSize ∧
      (compactGo s l acc).1.bufBytesDeletePending = flaggedSum (compactGo s l acc).2 := by
  induction l with
  | nil =>
      intro s acc h1 h2 h3
      have hu : usedSum ([] : List BufBlock) = 0 := rfl
      have hf : flaggedSum ([] : List BufBlock) = 0 := rfl
      refine ⟨?_, ?_⟩ <;> simp [compactGo] <;> omega
  | cons n rest ih =>
      intro s acc h1 h2 h3
      by_cases hn : n.blockDeletePending
      · have hun : usedSum (n :: rest) = usedSum rest := by simp [usedSum, hn]
        have hfn : flaggedSum (n :: rest) = n.blockSize + flaggedSum rest := by
          simp [flaggedSum, hn]
        simp only [compactGo, if_pos hn]
        apply ih
        · rw [removeBlockFromBuf_bufBytesFree, removeBlockFromBuf_pending,
            removeBlockFromBuf_bufSize]
          omega
        · rw [removeBlockFromBuf_pending]
          omega
        · exact h3
      · have hun : usedSum (n :: rest) = n.blockSize + usedSum rest := by
          simp [usedSum, hn]
        have hfn : flaggedSum (n :: rest) = flaggedSum rest := by simp [flaggedSum, hn]
        simp only [compactGo, if_neg hn]
        apply ih
        · have : usedSum (n :: acc) = n.blockSize + usedSum acc := by simp [usedSum, hn]
          omega
        · have : flaggedSum (n :: acc) = flaggedSum acc := by simp [flaggedSum, hn]
          omega
        · simp [flaggedSum, hn, h3]

theorem compactBuf_inv {s : CircularBuffer} (h : bufInv s) : bufInv (compactBuf s) := by
  by_cases h0 : s.bufBytesDeletePending = 0
  · rw [compactBuf_pending_zero h0]; exact h
  · obtain ⟨h1, h2⟩ := h
    have hmain := compactGo_inv s.blocks.reverse s []
      (by rw [usedSum_reverse]; simpa [usedSum] using h1)
      (by rw [flaggedSum_reverse]; simpa [flaggedSum] using h2)
      (by rfl)
    rw [compactBuf, if_neg h0]
    constructor
    · simp only [updateBufBlockList, usedSum_updateBlocks]
      exact hmain.1
    · simp only [updateBufBlockList, flaggedSum_updateBlocks]
      exact hmain.2

theorem checkSize_inv {s : CircularBuffer} (h : bufInv s) (n : Nat) :
    bufInv (checkSize s n).1 := by
  unfold checkSize
  split_ifs with h1 h2 h3
  · exact h
  · exact h
  · exact compactBuf_inv h
  · exact compactBuf_inv h

theorem checkSize_success_le {s : CircularBuffer} {n : Nat}
    (h : (checkSize s n).2 = ResultCode.RC_SUCCESS) :
    n ≤ (checkSize s n).1.bufBytesFree := by
  unfold checkSize at h ⊢
  split_ifs at h ⊢ with h1 h2 h3 <;> simp_all

theorem appendBlockToBuf_state_success {s : CircularBuffer} {data : List Nat}
    (h : (checkSize s data.length).2 = ResultCode.RC_SUCCESS) :
    (appendBlockToBuf s data).1.bufBytesFree
        = (checkSize s data.length).1.bufBytesFree - data.length ∧
    (appendBlockToBuf s data).1.bufBytesDeletePending
        = (checkSize s data.length).1.bufBytesDeletePending ∧
    (appendBlockToBuf s data).1.blocks = (checkSize s data.length).1.blocks ∧
    (appendBlockToBuf s data).1.bufSize = (checkSize s data.length).1.bufSize ∧
    (appendBlockToBuf s data).2.1 = ResultCode.RC_SUCCESS := by
  unfold appendBlockToBuf
  rw [if_pos h]
  exact ⟨rfl, rfl, rfl, rfl, rfl⟩

theorem appendBlockToBuf_state_fail {s : CircularBuffer} {data : List Nat}
    (h : ¬ (checkSize s data.length).2 = ResultCode.RC_SUCCESS) :
    (appendBlockToBuf s data).1 = (checkSize s data.length).1 ∧
    (appendBlockToBuf s data).2.1 = (checkSize s data.length).2 := by
  unfold appendBlockToBuf
  rw [if_neg h]
  exact ⟨rfl, rfl⟩

theorem addAfterFind_inv {s : CircularBuffer} (h : bufInv s) (key : Nat)
    (data : List Nat) : bufInv (addAfterFind s key data).1 := by
  have hcs := checkSize_inv h data.length
  by_cases hrc : (checkSize s data.length).2 = ResultCode.RC_SUCCESS
  · obtain ⟨hfree, hpend, hblocks, hsize, hok⟩ := appendBlockToBuf_state_success hrc
    have hle := checkSize_success_le hrc
    unfold addAfterFind
    rw [if_pos hok]
    constructor
    · show (appendBlockToBuf s data).1.bufBytesFree
          + (appendBlockToBuf s data).1.bufBytesDeletePending
          + usedSum ((appendBlockToBuf s data).1.blocks ++ [newBufBlock s key data])
          = (appendBlockToBuf s data).1.bufSize
      rw [usedSum_append, hfree, hpend, hblocks, hsize]
      have hnb : usedSum [newBufBlock s key data] = data.length := by
        simp [usedSum, newBufBlock]
      rw [hnb]
      have := hcs.1
      omega
    · show (appendBlockToBuf s data).1.bufBytesDeletePending
          = flaggedSum ((appendBlockToBuf s data).1.blocks ++ [newBufBlock s key data])
      rw [flaggedSum_append, hpend, hblocks]
      have hnb : flaggedSum [newBufBlock s key data] = 0 := by
        simp [flaggedSum, newBufBlock]
      rw [hnb]
      have := hcs.2
      omega
  · obtain ⟨hst, hrc2⟩ := appendBlockToBuf_state_fail hrc
    have hne : ¬ (appendBlockToBuf s data).2.1 = ResultCode.RC_SUCCESS := by
      rw [hrc2]; exact hrc
    unfold addAfterFind
    rw [if_neg hne]
    show bufInv (appendBlockToBuf s data).1
    rw [hst]
    exact hcs

theorem mark_sums {l : List BufBlock} {key : Nat} {b : BufBlock}
    (hfind : l.find? (fun x => x.blockMapKey == key) = some b)
    (hflag : b.blockDeletePending = false) :
    usedSum (markDeletePending l key) + b.blockSize = usedSum l ∧
    flaggedSum (markDeletePending l key) = flaggedSum l + b.blockSize := by
  induction l with
  | nil => simp at hfind
  | cons x rest ih =>
      by_cases hx : (x.blockMapKey == key) = true
      · simp only [List.find?_cons, hx, cond_true] at hfind
        have hbx : x = b := by injection hfind
        subst hbx
        constructor
        · simp [markDeletePending, hx, usedSum, hflag]
          omega
        · simp [markDeletePending, hx, flaggedSum, hflag]
          omega
      · simp only [List.find?_cons, Bool.of_not_eq_true hx, cond_false] at hfind
        obtain ⟨hu, hf⟩ := ih hfind
        constructor
        · simp [markDeletePending, hx, usedSum]
          omega
        · simp [markDeletePending, hx, flaggedSum]
          omega

theorem markDeletePending_noop {l : List BufBlock} {key : Nat} {b : BufBlock}
    (hfind : l.find? (fun x => x.blockMapKey == key) = some b)
    (hflag : b.blockDeletePending = true) :
    markDeletePending l key = l := by
  induction l with
  | nil => simp at hfind
  | cons x rest ih =>
      by_cases hx : (x.blockMapKey == key) = true
      · simp only [List.find?_cons, hx, cond_true] at hfind
        have hbx : x = b := by injection hfind
        subst hbx
        have hxx : ({ x with blockDeletePending := true } : BufBlock) = x := by
          cases x
          simp only [BufBlock.mk.injEq] at *
          simp_all
        simp [markDeletePending, hx, hxx]
      · simp only [List.find?_cons, Bool.of_not_eq_true hx, cond_false] at hfind
        simp [markDeletePending, hx, ih hfind]

theorem delete_inv {s : CircularBuffer} (key : Nat) (hg : goodDelete s key)
    (h : bufInv s) : bufInv (deleteBlockFromBuf s key).1 := by
  unfold deleteBlockFromBuf
  cases hf : findBlockInMap s key with
  | none => exact h
  | some b =>
      have hflag : b.blockDeletePending = false := hg b hf
      have hfind : s.blocks.find? (fun x => x.blockMapKey == key) = some b := hf
      obtain ⟨hu, hfl⟩ := mark_sums hfind hflag
      obtain ⟨h1, h2⟩ := h
      constructor
      · show s.bufBytesFree + (s.bufBytesDeletePending + b.blockSize)
            + usedSum (markDeletePending s.blocks key) = s.bufSize
        omega
      · show s.bufBytesDeletePending + b.blockSize
            = flaggedSum (markDeletePending s.blocks key)
        omega

theorem add_inv {s : CircularBuffer} (h : bufInv s) (key : Nat) (data : List Nat) :
    bufInv (addBlockToBuf s key data).1 := by
  unfold addBlockToBuf
  cases hf : findBlockInMap s key with
  | none => exact addAfterFind_inv h key data
  | some b =>
      show bufInv (if b.blockDeletePending = true then addAfterFind (compactBuf s) key data
        else (s, setBufInfo s, ResultCode.RC_BLOCK_ADD_FAILED_DUPLICATE)).1
      by_cases hb : b.blockDeletePending = true
      · rw [if_pos hb]
        exact addAfterFind_inv (compactBuf_inv h) key data
      · rw [if_neg hb]
        exact h

theorem reachableSafe_inv {s : CircularBuffer} (h : ReachableSafe s) : bufInv s := by
  induction h with
  | init cap =>
      constructor
      · show cap + 0 + usedSum [] = cap
        simp [usedSum]
      · rfl
  | add key data _ ih => exact add_inv ih key data
  | del key hg _ ih => exact delete_inv key hg ih
  | dump _ ih =>
      show bufInv (compactBuf _)
      exact compactBuf_inv ih

theorem compactGo_blocks_unflagged (l : List BufBlock) :
    ∀ (s : CircularBuffer) (acc : List BufBlock),
      (∀ b ∈ acc, b.blockDeletePending = false) →
      ∀ b ∈ (compactGo s l acc).2, b.blockDeletePending = false := by
  induction l with
  | nil => intro s acc hacc b hb; exact hacc b hb
  | cons n rest ih =>
      intro s acc hacc b hb
      by_cases hn : n.blockDeletePending = true
      · simp only [compactGo, hn, if_true] at hb
        exact ih _ _ hacc b hb
      · simp only [compactGo, hn, if_false] at hb
        refine ih _ _ ?_ b hb
        intro a ha
        rcases List.mem_cons.mp ha with rfl | ha
        · exact Bool.of_not_eq_true hn
        · exact hacc a ha

theorem compactGo_unflagged_id (l : List BufBlock) :
    ∀ (s : CircularBuffer) (acc : List BufBlock),
      (∀ b ∈ l, b.blockDeletePending = false) →
      compactGo s l acc = (s, l.reverse ++ acc) := by
  induction l with
  | nil => intro s acc _; simp [compactGo]
  | cons n rest ih =>
      intro s acc h
      have hn : n.blockDeletePending = false := h n (by simp)
      simp only [compactGo, hn, if_false, Bool.false_eq_true]
      rw [ih _ _ (fun b hb => h b (by simp [hb]))]
      simp

theorem emitBuf_updateBufBlockList (s : CircularBuffer) :
    emitBuf (updateBufBlockList s) = emitBuf s := rfl

theorem compactBuf_blocks_unflagged {s : CircularBuffer}
    (h : ¬ s.bufBytesDeletePending = 0) :
    ∀ b ∈ (compactBuf s).blocks, b.blockDeletePending = false := by
  intro b hb
  rw [compactBuf, if_neg h] at hb
  simp only [updateBufBlockList] at hb
  obtain ⟨a, ha, hba⟩ := updateBlocks_flag _ _ _ b hb
  rw [hba]
  exact compactGo_blocks_unflagged _ _ _ (by simp) a ha

/-! ## Claim theorems -/

/-- Claim C1 (counterexample): the invariant
`capacity == freeBytes + pendingDeleteBytes + usedBytes` does NOT hold for
every reachable state.  After `Add(5, one byte)`, `Delete(5)`, `Delete(5)`
on a capacity-2 buffer - a reachable sequence of public calls -
`deleteBlockFromBuf` has added the block's size to `bufBytesDeletePending`
twice, so `freeBytes + pendingDeleteBytes + usedBytes = 1 + 2 + 0 = 3 ≠ 2`. -/
theorem C1_invariant_counterexample :
    ReachableAll c1state ∧
    c1state.bufSize ≠
      c1state.bufBytesFree + c1state.bufBytesDeletePending + usedSum c1state.blocks :=
  ⟨ReachableAll.del 5 (ReachableAll.del 5 (ReachableAll.add 5 [9]
      (ReachableAll.init 2))),
   by decide⟩

/-- Claim C1 (amended): for every state reachable by `Add`/`Delete`/`Dump`
sequences in which `Delete` is never applied to a key whose record is
already delete-pending, `capacity == freeBytes + pendingDeleteBytes +
usedBytes`, where `usedBytes` is the total size of live records not marked
delete-pending. -/
theorem C1_invariant_restricted (s : CircularBuffer) (h : ReachableSafe s) :
    s.bufSize =
      s.bufBytesFree + s.bufBytesDeletePending + usedSum s.blocks :=
  ((reachableSafe_inv h).1).symm

/-- Witness for C1 (amended), at the reachable state `Add(1,[7])` then
`Delete(1)` on a capacity-4 buffer. -/
theorem C1_invariant_witness :
    ((deleteBlockFromBuf (addBlockToBuf (initBuf 4) 1 [7]).1 1).1).bufSize =
      ((deleteBlockFromBuf (addBlockToBuf (initBuf 4) 1 [7]).1 1).1).bufBytesFree +
      ((deleteBlockFromBuf (addBlockToBuf (initBuf 4) 1 [7]).1 1).1).bufBytesDeletePending +
      usedSum ((deleteBlockFromBuf (addBlockToBuf (initBuf 4) 1 [7]).1 1).1).blocks :=
  C1_invariant_restricted _
    (ReachableSafe.del 1
      (by
        intro b hb
        have hf : findBlockInMap (addBlockToBuf (initBuf 4) 1 [7]).1 1
            = some ⟨0, 1, 1, false⟩ := by decide
        rw [hf] at hb
        injection hb with hbb
        rw [← hbb])
      (ReachableSafe.add 1 [7] (ReachableSafe.init 4)))

/-- Claim C2 (counterexample): `Delete` of a key that is not in the index
returns `RC_SUCCESS`, not `RC_BLOCK_NOT_FOUND`: `deleteBlockFromBuf` returns
`RC_SUCCESS` unconditionally. -/
theorem C2_delete_absent_counterexample :
    findBlockInMap (initBuf 4) 1 = none ∧
    (deleteBlockFromBuf (initBuf 4) 1).2.2 = ResultCode.RC_SUCCESS ∧
    ResultCode.RC_SUCCESS ≠ ResultCode.RC_BLOCK_NOT_FOUND := by
  refine ⟨rfl, rfl, ?_⟩
  decide

/-- Claim C2 (amended): for every key absent from the index, `Delete`
performs no mutation and reports the current, unchanged stats, but its
return code is `Success` (`RC_SUCCESS`), not `KeyNotFound`. -/
theorem C2_delete_absent_amended (s : CircularBuffer) (key : Nat)
    (h : findBlockInMap s key = none) :
    deleteBlockFromBuf s key = (s, setBufInfo s, ResultCode.RC_SUCCESS) := by
  unfold deleteBlockFromBuf
  rw [h]

/-- Witness for C2 (amended) on an empty capacity-4 buffer. -/
theorem C2_delete_absent_witness :
    deleteBlockFromBuf (initBuf 4) 1
      = (initBuf 4, setBufInfo (initBuf 4), ResultCode.RC_SUCCESS) :=
  C2_delete_absent_amended (initBuf 4) 1 rfl

/-- Claim C3 (refuted - code bug): on the sequence `Add(1,[1])`,
`Add(2,[2,3])`, `Delete(2)`, `Add(3,[4,5])` (capacity 4), the final `Add`'s
capacity-admission check compacts (moving `bufEnd` from 3 to 1), the append
then copies the data at offset 1 (the bytes 4,5 land at offsets 1,2), but
the `BlockRecord` is built from the stale `bufEnd` captured before the
append and records offset 3. -/
theorem C3_stale_offset_bug :
    c3state.bufEnd = 3 ∧
    (appendBlockToBuf c3state [4, 5]).2.2 = 1 ∧
    (addBlockToBuf c3state 3 [4, 5]).1.buf 1 = 4 ∧
    (addBlockToBuf c3state 3 [4, 5]).1.buf 2 = 5 ∧
    findBlockInMap (addBlockToBuf c3state 3 [4, 5]).1 3
      = some ⟨3, 3, 2, false⟩ ∧
    (1 : Nat) ≠ 3 := by
  refine ⟨rfl, rfl, rfl, rfl, rfl, ?_⟩
  decide

/-- Claim C4 (refuted - code bug): `c4state` is reachable and has
`bufStart = 2`, `bufEnd = 1`, `bufBytesFree = 4 = bufSize` (left behind by
removing the sole block, which sets `bufStart` and `bufEnd` inconsistently).
Appending 4 bytes - which satisfies `len(data) ≤ freeBytes` - takes the
unsplit path because `bufEnd ≤ bufStart`, and writes the byte 8 at index 4,
outside the capacity-4 backing region (index 4 held 0 before). -/
theorem C4_oob_write_bug :
    ReachableAll c4state ∧
    c4state.bufSize = 4 ∧
    List.length [5, 6, 7, 8] ≤ c4state.bufBytesFree ∧
    c4state.buf 4 = 0 ∧
    (addBlockToBuf c4state 3 [5, 6, 7, 8]).1.buf 4 = 8 :=
  ⟨ReachableAll.dump (ReachableAll.del 2 (ReachableAll.dump (ReachableAll.del 1
      (ReachableAll.add 2 [2] (ReachableAll.add 1 [1] (ReachableAll.init 4)))))),
   rfl, by decide, rfl, rfl⟩

/-- Claim C5 (refuted - code bug): `c5state` is reachable (capacity 4:
`Add(1,[1,2])`, `Add(2,[3])`, `Delete(2)`, `Delete(1)`, `Dump`,
`Add(3,[9])`); its only live block is key 3 whose byte 9 sits at offset 0,
yet `Dump` emits `[3]` - the byte of the deleted block of key 2 - because
the compaction of the final (sole) block left `bufStart = 2`, `bufEnd = 0`
instead of an empty region. -/
theorem C5_dump_stale_bug :
    ReachableAll c5state ∧
    c5state.blocks = [⟨0, 3, 1, false⟩] ∧
    c5state.buf 0 = 9 ∧
    (printBuf c5state).2 = [3] ∧
    ([3] : List Nat) ≠ [9] :=
  ⟨ReachableAll.add 3 [9] (ReachableAll.dump (ReachableAll.del 1
      (ReachableAll.del 2 (ReachableAll.add 2 [3]
        (ReachableAll.add 1 [1, 2] (ReachableAll.init 4)))))),
   rfl, rfl, rfl, by decide⟩

/-- Claim C6: the capacity-admission check `checkSize` admits immediately
without compaction when `size ≤ freeBytes`; rejects with
`SizeExceedsCapacity` when `size > freeBytes + pendingDeleteBytes`;
otherwise runs the Compactor and admits afterwards if and only if
`size ≤ freeBytes` then holds. -/
theorem C6_checkSize_cases (s : CircularBuffer) (n : Nat) :
    (n ≤ s.bufBytesFree → checkSize s n = (s, ResultCode.RC_SUCCESS)) ∧
    (s.bufBytesFree < n → s.bufBytesFree + s.bufBytesDeletePending < n →
      checkSize s n = (s, ResultCode.RC_BLOCK_SIZE_EXCEEDS_FREE_SPACE)) ∧
    (s.bufBytesFree < n → n ≤ s.bufBytesFree + s.bufBytesDeletePending →
      checkSize s n = (compactBuf s,
        if n ≤ (compactBuf s).bufBytesFree then ResultCode.RC_SUCCESS
        else ResultCode.RC_BLOCK_SIZE_EXCEEDS_FREE_SPACE)) := by
  refine ⟨fun h1 => ?_, fun h1 h2 => ?_, fun h1 h2 => ?_⟩
  · unfold checkSize
    rw [if_pos h1]
  · unfold checkSize
    rw [if_neg (by omega), if_pos (by omega)]
  · unfold checkSize
    rw [if_neg (by omega), if_neg (by omega)]

/-- Witness for C6: all three branches at concrete inputs (`c6state` has
`freeBytes = 2`, `pendingDeleteBytes = 2`). -/
theorem C6_checkSize_witness :
    checkSize (initBuf 4) 3 = (initBuf 4, ResultCode.RC_SUCCESS) ∧
    checkSize (initBuf 4) 9 = (initBuf 4, ResultCode.RC_BLOCK_SIZE_EXCEEDS_FREE_SPACE) ∧
    checkSize c6state 3 = (compactBuf c6state,
      if 3 ≤ (compactBuf c6state).bufBytesFree then ResultCode.RC_SUCCESS
      else ResultCode.RC_BLOCK_SIZE_EXCEEDS_FREE_SPACE) :=
  ⟨(C6_checkSize_cases (initBuf 4) 3).1 (by decide),
   (C6_checkSize_cases (initBuf 4) 9).2.1 (by decide) (by decide),
   (C6_checkSize_cases c6state 3).2.2 (by decide) (by decide)⟩

/-- Claim C7: an `Add` for a key whose record is live and not delete-pending
fails with `DuplicateKey`, mutates nothing, still reports the current stats,
and a subsequent `Dump` emits exactly what it would have without the
attempt. -/
theorem C7_duplicate_add (s : CircularBuffer) (key : Nat) (data : List Nat)
    (b : BufBlock) (hfind : findBlockInMap s key = some b)
    (hflag : b.blockDeletePending = false) :
    addBlockToBuf s key data
        = (s, setBufInfo s, ResultCode.RC_BLOCK_ADD_FAILED_DUPLICATE) ∧
    (printBuf (addBlockToBuf s key data).1).2 = (printBuf s).2 := by
  have h1 : addBlockToBuf s key data
      = (s, setBufInfo s, ResultCode.RC_BLOCK_ADD_FAILED_DUPLICATE) := by
    unfold addBlockToBuf
    rw [hfind]
    show (if b.blockDeletePending = true then addAfterFind (compactBuf s) key data
      else (s, setBufInfo s, ResultCode.RC_BLOCK_ADD_FAILED_DUPLICATE))
      = (s, setBufInfo s, ResultCode.RC_BLOCK_ADD_FAILED_DUPLICATE)
    rw [if_neg (by simp [hflag])]
  exact ⟨h1, by rw [h1]⟩

/-- Witness for C7: a second `Add` under key 1 on `c7state` (which holds
key 1 live with data byte 7). -/
theorem C7_duplicate_add_witness :
    addBlockToBuf c7state 1 [9]
        = (c7state, setBufInfo c7state, ResultCode.RC_BLOCK_ADD_FAILED_DUPLICATE) ∧
    (printBuf (addBlockToBuf c7state 1 [9]).1).2 = (printBuf c7state).2 :=
  C7_duplicate_add c7state 1 [9] ⟨0, 1, 1, false⟩ (by decide) rfl

/-- Claim C8 (refuted - code bug): on `c8state` (capacity 4, key 1 holds
bytes 1,2 and is delete-pending), `Add(1,[8,9])` succeeds and copies the new
bytes to offsets 0,1, but the compaction of the sole stale block left
`bufStart = 2`, `bufEnd = 0`, so the record offset/cursors are inconsistent
and the subsequent `Dump` emits the never-written bytes `[0, 0]` instead of
`[8, 9]`: no trace of `newData` is visible. -/
theorem C8_readd_dump_bug :
    (addBlockToBuf c8state 1 [8, 9]).2.2 = ResultCode.RC_SUCCESS ∧
    (addBlockToBuf c8state 1 [8, 9]).1.buf 0 = 8 ∧
    (addBlockToBuf c8state 1 [8, 9]).1.buf 1 = 9 ∧
    (printBuf (addBlockToBuf c8state 1 [8, 9]).1).2 = [0, 0] ∧
    ([0, 0] : List Nat) ≠ [8, 9] := by
  refine ⟨rfl, rfl, rfl, rfl, ?_⟩
  decide

/-- Claim C9: two consecutive `Dump`s with no intervening `Add`/`Delete`
emit identical bytes, for every buffer state: the first `Dump`'s compaction
leaves no delete-pending record, so the second `Dump`'s compaction changes
none of the fields the emission reads. -/
theorem C9_dump_idempotent (s : CircularBuffer) :
    (printBuf (printBuf s).1).2 = (printBuf s).2 := by
  show emitBuf (compactBuf (compactBuf s)) = emitBuf (compactBuf s)
  by_cases h0 : s.bufBytesDeletePending = 0
  · rw [compactBuf_pending_zero h0, compactBuf_pending_zero h0]
  · by_cases h1 : (compactBuf s).bufBytesDeletePending = 0
    · rw [compactBuf_pending_zero h1]
    · set t := compactBuf s with ht
      have hall : ∀ b ∈ t.blocks.reverse, b.blockDeletePending = false := by
        intro b hb
        exact compactBuf_blocks_unflagged h0 b (List.mem_reverse.mp hb)
      have hgo : compactGo t t.blocks.reverse [] = (t, t.blocks) := by
        rw [compactGo_unflagged_id _ _ _ hall]
        simp
      have hc : compactBuf t = updateBufBlockList t := by
        rw [compactBuf, if_neg h1, hgo]
      rw [hc, emitBuf_updateBufBlockList]

/-- Claim C10: `Delete` of a key whose record is already delete-pending
returns `Success`, reports stats, and adds the block's size to
`pendingDeleteBytes` a second time, while the record list, the ring bytes,
the cursors and `freeBytes` are all left unchanged. -/
theorem C10_repeat_delete (s : CircularBuffer) (key : Nat) (b : BufBlock)
    (hfind : findBlockInMap s key = some b)
    (hflag : b.blockDeletePending = true) :
    deleteBlockFromBuf s key =
      ({ s with bufBytesDeletePending := s.bufBytesDeletePending + b.blockSize },
       setBufInfo { s with bufBytesDeletePending := s.bufBytesDeletePending + b.blockSize },
       ResultCode.RC_SUCCESS) := by
  have hm : markDeletePending s.blocks key = s.blocks :=
    markDeletePending_noop hfind hflag
  unfold deleteBlockFromBuf
  rw [hfind]
  show ({ s with
            bufBytesDeletePending := s.bufBytesDeletePending + b.blockSize
            blocks := markDeletePending s.blocks key },
        setBufInfo { s with
            bufBytesDeletePending := s.bufBytesDeletePending + b.blockSize
            blocks := markDeletePending s.blocks key },
        ResultCode.RC_SUCCESS) = _
  rw [hm]

/-- Witness for C10: repeated delete of key 1 on `c10state` (whose record
for key 1 is already delete-pending with size 1). -/
theorem C10_repeat_delete_witness :
    deleteBlockFromBuf c10state 1 =
      ({ c10state with bufBytesDeletePending := c10state.bufBytesDeletePending + 1 },
       setBufInfo { c10state with bufBytesDeletePending := c10state.bufBytesDeletePending + 1 },
       ResultCode.RC_SUCCESS) :=
  C10_repeat_delete c10state 1 ⟨0, 1, 1, true⟩ (by decide) rfl

/-- Model validation: the embedding reproduces the repository's own
`DeleteBlock` google-test scenario (capacity 18, two 9-byte messages,
delete-then-readd): the re-add succeeds with 18 bytes used and the dump
shows message 4 followed by the re-added message 3. -/
theorem model_matches_repo_test :
    (addBlockToBuf (deleteBlockFromBuf (addBlockToBuf (addBlockToBuf (initBuf 18)
        3 (List.replicate 9 3)).1 4 (List.replicate 9 4)).1 3).1
        3 (List.replicate 9 33)).2.2 = ResultCode.RC_SUCCESS ∧
    (printBuf (addBlockToBuf (deleteBlockFromBuf (addBlockToBuf (addBlockToBuf (initBuf 18)
        3 (List.replicate 9 3)).1 4 (List.replicate 9 4)).1 3).1
        3 (List.replicate 9 33)).1).2
      = List.replicate 9 4 ++ List.replicate 9 33 := by
  refine ⟨rfl, ?_⟩
  decide
